import Mathlib

/-!
Verification development for a bank-statement extraction and analysis tool.

The Python sources are shallowly embedded: pure functions become Lean
functions over `List Char` (Python `str`), `ℚ` (Python `float` arithmetic on
decimal literals), `Option`/`Except` (Python `None` / raised exceptions).
File-system and pdf effects are modelled by passing the values the library
calls would return (page texts, raw extracted rows) as explicit arguments.
-/

/-! ### Reconciler (`analyse.py`, `reconcile_reimbursements`) -/

/-- A ledger row as seen by `reconcile_reimbursements`: only the
`description` and `amount` columns are consulted. -/
structure LRow where
  description : String
  amount : ℚ
deriving DecidableEq, Repr

/-- `df[df["amount"] < 0]` together with the pandas row labels
(positional indices here). -/
def creditsOf (df : List LRow) : List (ℕ × LRow) :=
  df.enum.filter (fun p => decide (p.2.amount < 0))

/-- `debit_groups.get(d, [])`: the `(index, amount)` pairs of the rows with
`amount > 0` and description `d`, in ledger order (the dict groups debits by
description preserving iteration order). -/
def debitGroup (df : List LRow) (d : String) : List (ℕ × ℚ) :=
  (df.enum.filter (fun p => decide (0 < p.2.amount))).filterMap
    (fun p => if p.2.description = d then some (p.1, p.2.amount) else none)

/-- The inner candidate scan of `reconcile_reimbursements`: first candidate
not already in `to_drop` with `abs(amount + credit_amount) <= tolerance`. -/
def findMatch (toDrop : Finset ℕ) (cands : List (ℕ × ℚ)) (creditAmt tol : ℚ) :
    Option ℕ :=
  match cands with
  | [] => none
  | (j, a) :: rest =>
    if j ∈ toDrop then findMatch toDrop rest creditAmt tol
    else if |a + creditAmt| ≤ tol then some j
    else findMatch toDrop rest creditAmt tol

/-- The outer loop of `reconcile_reimbursements` over the credits,
accumulating the `to_drop` set. -/
def reconLoop (df : List LRow) (tol : ℚ) :
    List (ℕ × LRow) → Finset ℕ → Finset ℕ
  | [], toDrop => toDrop
  | (i, c) :: rest, toDrop =>
    match findMatch toDrop (debitGroup df c.description) c.amount tol with
    | some j => reconLoop df tol rest (insert j (insert i toDrop))
    | none => reconLoop df tol rest (insert i toDrop)

/-- The `to_drop` set computed by `reconcile_reimbursements`. -/
def reconDrops (df : List LRow) (tol : ℚ) : Finset ℕ :=
  reconLoop df tol (creditsOf df) ∅

/-- `reconcile_reimbursements(df, tolerance)`: returns
`(df.drop(index=list(to_drop)), len(to_drop))`. -/
def reconcile_reimbursements (df : List LRow) (tol : ℚ) : List LRow × ℕ :=
  let toDrop := reconDrops df tol
  ((df.enum.filter (fun p => decide (p.1 ∉ toDrop))).map (·.2), toDrop.card)

/-! Specification-side rendering of the reconciliation matching rule, written
from the claim's words: for each credit, in ledger iteration order, consume
the first not-yet-consumed debit (row with `amount > 0`) whose description is
identical to the credit's and whose magnitude is within the absolute
tolerance of the credit's magnitude. -/

/-- Spec-side scan: first unconsumed debit in ledger order matching the
credit `c` by identical description and magnitude within `tol`. -/
def specScan (consumed : Finset ℕ) (c : LRow) (tol : ℚ) :
    List (ℕ × LRow) → Option ℕ
  | [] => none
  | (j, r) :: rest =>
    if 0 < r.amount ∧ j ∉ consumed ∧ r.description = c.description ∧
        |(|r.amount|) - (|c.amount|)| ≤ tol
    then some j
    else specScan consumed c tol rest

/-- Spec-side outer loop over credits, same shape as the claim's narrative. -/
def specLoop (df : List LRow) (tol : ℚ) :
    List (ℕ × LRow) → Finset ℕ → Finset ℕ
  | [], consumed => consumed
  | (i, c) :: rest, consumed =>
    match specScan consumed c tol df.enum with
    | some j => specLoop df tol rest (insert j (insert i consumed))
    | none => specLoop df tol rest (insert i consumed)

/-- Spec-side drop set: every credit plus its greedily matched debit. -/
def specDrops (df : List LRow) (tol : ℚ) : Finset ℕ :=
  specLoop df tol (creditsOf df) ∅

/-! ### String / number primitives shared by the grammars

Python `str` values are embedded as `List Char`. -/

/-- The whitespace class used by Python's `\s` / `str.split()` / `str.strip()`
(restricted to the code points that can occur in these statements). -/
def isSpaceWS (c : Char) : Bool :=
  c = ' ' ∨ c = '\t' ∨ c = '\n' ∨ c = '\r' ∨ c = '\x0b' ∨ c = '\x0c' ∨ c = '\xa0'

/-- Numeric value of a digit string, as computed by Python `int`. -/
def natVal (w : List Char) : ℕ :=
  w.foldl (fun acc c => acc * 10 + (c.toNat - '0'.toNat)) 0

/-- Python `str.strip()` (no arguments): drop leading and trailing
whitespace. -/
def stripWS (w : List Char) : List Char :=
  ((w.dropWhile isSpaceWS).reverse.dropWhile isSpaceWS).reverse

/-- Unsigned part of Python `float(...)` on the decimal strings reachable in
this code base: digits, optionally one `'.'` with digit fraction, at least one
digit in total. Any other character raises `ValueError`, i.e. `none`. -/
def pyFloatUnsigned (w : List Char) : Option ℚ :=
  let ip := w.takeWhile Char.isDigit
  let rest := w.dropWhile Char.isDigit
  match rest with
  | [] => if ip.isEmpty then none else some (natVal ip)
  | '.' :: frac =>
    if frac.all Char.isDigit ∧ (ip ≠ [] ∨ frac ≠ []) then
      some ((natVal ip : ℚ) + (natVal frac : ℚ) / (10 : ℚ) ^ frac.length)
    else none
  | _ => none

/-- Python `float(...)` on the strings reachable here: optional surrounding
whitespace, optional sign, plain decimal literal.  (`inf`, `nan`, exponents
and `_` separators are unreachable from the callers' character sets.) -/
def pyFloat (w : List Char) : Option ℚ :=
  match stripWS w with
  | [] => none
  | c :: t =>
    if c = '-' then (pyFloatUnsigned t).map (fun q => -q)
    else if c = '+' then pyFloatUnsigned t
    else pyFloatUnsigned (c :: t)

/-! ### Desjardins grammar: amount parsing (`desjardins.py`, lines 67-90) -/

/-- `amt_raw.endswith("CR")`. -/
def endsCR (w : List Char) : Bool :=
  match w.reverse with
  | r :: c :: _ => r == 'R' && c == 'C'
  | _ => false

/-- `amt_stripped.strip("()")`: drop all leading and trailing parenthesis
characters. -/
def stripParens (w : List Char) : List Char :=
  ((w.dropWhile (fun c => c == '(' || c == ')')).reverse.dropWhile
    (fun c => c == '(' || c == ')')).reverse

/-- `amt_stripped.replace(" ", "").replace("\xa0", "")`. -/
def removeSpaces (w : List Char) : List Char :=
  w.filter (fun c => ¬ (c = ' ' ∨ c = '\xa0'))

/-- The conditional decimal-comma normalisation:
`if amt_clean.count(",") == 1 and amt_clean.count(".") == 0:
amt_clean = amt_clean.replace(",", ".")`. -/
def commaToDot (w : List Char) : List Char :=
  if w.count ',' = 1 ∧ w.count '.' = 0 then
    w.map (fun c => if c = ',' then '.' else c)
  else w

/-- The amount-normalisation tail of `DesjardinsParser.parse_file` after the
`CR`-suffix test: minus-sign strip, parenthesis strip, space removal, comma
normalisation, `float` conversion and final sign application. -/
def parseAfterCR (isCredit : Bool) (s1 : List Char) : Option ℚ :=
  let negMinus : Bool := s1.head? == some '-'
  let s2 := if s1.head? == some '-' then s1.tail else s1
  let negParen : Bool := s2.head? == some '(' && s2.getLast? == some ')'
  let s3 := if negParen then stripParens s2 else s2
  let negative := negMinus || negParen
  match pyFloat (commaToDot (removeSpaces s3)) with
  | none => none
  | some m => some (if isCredit || negative then -m else m)

/-- The full amount conversion of `DesjardinsParser.parse_file`
(lines 67-90): returns the signed amount, or `none` when `float` raises and
the row is skipped. -/
def parseAmount (raw : List Char) : Option ℚ :=
  if endsCR raw then parseAfterCR true ((raw.reverse.drop 2).reverse)
  else parseAfterCR false raw

/-! ### Calendar dates (Python `datetime.datetime` / `datetime.date`) -/

/-- A validated Gregorian date as constructed by `datetime(...)`. -/
structure PyDate where
  year : ℕ
  month : ℕ
  day : ℕ
deriving DecidableEq, Repr

/-- Gregorian leap-year rule used by `datetime`. -/
def isLeap (y : ℕ) : Bool := y % 4 = 0 ∧ (y % 100 ≠ 0 ∨ y % 400 = 0)

/-- Length of a month as validated by `datetime`. -/
def daysInMonth (y m : ℕ) : ℕ :=
  if m = 2 then (if isLeap y then 29 else 28)
  else if m = 4 ∨ m = 6 ∨ m = 9 ∨ m = 11 then 30
  else 31

/-- `datetime(year, month, day)` (and `date(...)`): `some` on a valid
calendar date within `MINYEAR..MAXYEAR`, `none` when `ValueError` is
raised. -/
def mkDate (y m d : ℕ) : Option PyDate :=
  if 1 ≤ y ∧ y ≤ 9999 ∧ 1 ≤ m ∧ m ≤ 12 ∧ 1 ≤ d ∧ d ≤ daysInMonth y m then
    some ⟨y, m, d⟩
  else none

/-- `datetime` comparison `a < b` (lexicographic on year, month, day). -/
def dateLt (a b : PyDate) : Bool :=
  a.year < b.year ∨ (a.year = b.year ∧ a.month < b.month) ∨
    (a.year = b.year ∧ a.month = b.month ∧ a.day < b.day)

/-- Python `str.split()` with no separator: split on whitespace runs,
producing no empty parts. -/
def pySplitWS : List Char → List (List Char)
  | [] => []
  | c :: t =>
    if isSpaceWS c then pySplitWS t
    else (c :: t.takeWhile (fun x => ¬ isSpaceWS x)) ::
      pySplitWS (t.dropWhile (fun x => ¬ isSpaceWS x))
termination_by w => w.length
decreasing_by
  · simp only [List.length_cons]; omega
  · simp only [List.length_cons]
    have := (List.dropWhile_sublist (l := t) (fun x => ¬ isSpaceWS x)).length_le
    omega

/-- `parse_dd_mm(date_str, year)` from `desjardins.py` (lines 163-173):
split the token, require two all-digit parts, and build
`datetime(year, month, day)`; `none` on any failure. -/
def parse_dd_mm (w : List Char) (year : ℕ) : Option PyDate :=
  match pySplitWS w with
  | [p1, p2] =>
    if p1 ≠ [] ∧ p1.all Char.isDigit ∧ p2 ≠ [] ∧ p2.all Char.isDigit then
      mkDate year (natVal p2) (natVal p1)
    else none
  | _ => none

/-! ### Desjardins grammar: row normalisation (`desjardins.py`, lines 54-113) -/

/-- A raw row as produced by `parse_page_transactions`. -/
structure RawRow where
  transaction_date_raw : List Char
  posted_date_raw : List Char
  description : List Char
  description_raw : List Char
  amount_raw : List Char
deriving DecidableEq, Repr

/-- `str.upper()` (ASCII; sufficient for the markers compared against). -/
def pyUpper (w : List Char) : List Char := w.map Char.toUpper

/-- A normalised Desjardins transaction record. -/
structure DesjTx where
  transaction_date : PyDate
  posted_date : PyDate
  transaction_date_raw : List Char
  posted_date_raw : List Char
  description : List Char
  description_raw : List Char
  amount : ℚ
  is_payment : Bool
deriving DecidableEq, Repr

/-- The per-row body of the extraction loop in `DesjardinsParser.parse_file`
(lines 54-113): `none` exactly when the row is skipped. -/
def processRow (year : ℕ) (r : RawRow) : Option DesjTx :=
  match parse_dd_mm r.transaction_date_raw year with
  | none => none
  | some txDate =>
    match parse_dd_mm r.posted_date_raw year with
    | none => none
    | some postedDate =>
      if dateLt postedDate txDate then none
      else
        match parseAmount r.amount_raw with
        | none => none
        | some amount =>
          if r.description = [] then none
          else
            some
              { transaction_date := txDate
                posted_date := postedDate
                transaction_date_raw := r.transaction_date_raw
                posted_date_raw := r.posted_date_raw
                description := r.description
                description_raw := r.description_raw
                amount := amount
                is_payment :=
                  ("PAIEMENT CAISSE".data).isPrefixOf (pyUpper r.description) }

/-- The extraction loop over a page's raw rows: kept transactions in order
plus the `skipped` counter. -/
def processRows (year : ℕ) : List RawRow → List DesjTx × ℕ
  | [] => ([], 0)
  | r :: rest =>
    let acc := processRows year rest
    match processRow year r with
    | some t => (t :: acc.1, acc.2)
    | none => (acc.1, acc.2 + 1)

/-! ### Sniffer (`driver.py`, `sniff_file`) and pdf environment -/

/-- Outcome of `page.extract_text()` for one page: an exception, or the
extracted text (`none` models Python `None`, turned into `""` by `or ""`). -/
inductive PageRead where
  | err : PageRead
  | txt : Option (List Char) → PageRead
deriving DecidableEq, Repr

/-- Outcome of `pdfplumber.open(path)`: failure, or the list of pages. -/
inductive PdfEnv where
  | openFail : PdfEnv
  | opened : List PageRead → PdfEnv
deriving DecidableEq, Repr

/-- The `FileSniff` dataclass of `parsers/base.py`. -/
structure FileSniff where
  extension : List Char
  first_page_text : Option (List Char) := none
deriving DecidableEq, Repr

/-- `os.path.splitext(path)[1]`: the extension starts at the last dot of the
basename, provided some non-dot character of the basename precedes it. -/
def splitextExt (path : List Char) : List Char :=
  let base := (path.reverse.takeWhile (fun c => ¬ (c = '/'))).reverse
  let extBodyRev := base.reverse.takeWhile (fun c => ¬ (c = '.'))
  if extBodyRev.length = base.length then []
  else
    let pre := base.take (base.length - extBodyRev.length - 1)
    if pre.any (fun c => ¬ (c = '.')) then '.' :: extBodyRev.reverse else []

/-- `os.path.splitext(path)[1].lower()`. -/
def extLower (path : List Char) : List Char :=
  (splitextExt path).map Char.toLower

/-- `sniff_file(path)` from `driver.py` (lines 12-22), with the pdfplumber
interaction passed in as `env`.  Total: every failure mode is downgraded to a
`FileSniff` with no first-page text. -/
def sniff_file (path : List Char) (env : PdfEnv) : FileSniff :=
  let ext := extLower path
  if ext = ".pdf".data then
    match env with
    | .openFail => { extension := ext }
    | .opened [] => { extension := ext }
    | .opened (.err :: _) => { extension := ext }
    | .opened (.txt t :: _) =>
      { extension := ext, first_page_text := some (t.getD []) }
  else { extension := ext }

/-! ### Desjardins grammar: year inference (`desjardins.py`, lines 120-125
and 156-190).  The two `re` patterns are embedded as explicit scanners with
`re.search` leftmost semantics. -/

/-- Numeric value of the next four characters if they are all digits
(the `(\d{4})` group). -/
def fourDigits : List Char → Option ℕ
  | d1 :: d2 :: d3 :: d4 :: _ =>
    if d1.isDigit ∧ d2.isDigit ∧ d3.isDigit ∧ d4.isDigit then
      some (natVal [d1, d2, d3, d4])
    else none
  | _ => none

/-- Match of `Ann[ée]e\s+(\d{4})` (with `re.IGNORECASE`) anchored at the
start of `w`; returns the captured year. -/
def tryAnneeAt (w : List Char) : Option ℕ :=
  match w with
  | c1 :: c2 :: c3 :: c4 :: c5 :: rest =>
    if (c1 = 'A' ∨ c1 = 'a') ∧ (c2 = 'n' ∨ c2 = 'N') ∧ (c3 = 'n' ∨ c3 = 'N') ∧
        (c4 = 'é' ∨ c4 = 'É' ∨ c4 = 'e' ∨ c4 = 'E') ∧ (c5 = 'e' ∨ c5 = 'E') then
      if (rest.takeWhile isSpaceWS) = ([] : List Char) then none
      else fourDigits (rest.dropWhile isSpaceWS)
    else none
  | _ => none

/-- `re.search(r"Ann[ée]e\s+(\d{4})", text, re.IGNORECASE)`: leftmost
match. -/
def searchAnnee : List Char → Option ℕ
  | [] => none
  | c :: t =>
    match tryAnneeAt (c :: t) with
    | some y => some y
    | none => searchAnnee t

/-- The lazy `.*?Ann[ée]e\s+(\d{4})` tail: earliest `Année` match reachable
without skipping a newline (`.` does not match `\n`). -/
def searchAnneeNoNL : List Char → Option ℕ
  | [] => none
  | c :: t =>
    match tryAnneeAt (c :: t) with
    | some y => some y
    | none => if c = '\n' then none else searchAnneeNoNL t

/-- Case-insensitive literal prefix match; returns the remainder. -/
def matchCI : List Char → List Char → Option (List Char)
  | [], w => some w
  | _ :: _, [] => none
  | p :: ps, c :: cs => if c.toLower = p then matchCI ps cs else none

/-- Match of `DATE DU RELEV[ÉE].*?Ann[ée]e\s+(\d{4})` (`re.IGNORECASE`)
anchored at the start of `w`. -/
def tryDateRelevAt (w : List Char) : Option ℕ :=
  match matchCI ("date du relev".data) w with
  | none => none
  | some rest =>
    match rest with
    | [] => none
    | c :: rest2 =>
      if c = 'É' ∨ c = 'é' ∨ c = 'E' ∨ c = 'e' then searchAnneeNoNL rest2
      else none

/-- `re.search(r"DATE DU RELEV[ÉE].*?Ann[ée]e\s+(\d{4})", text,
re.IGNORECASE)`: leftmost match, captured year. -/
def searchDateRelev : List Char → Option ℕ
  | [] => none
  | c :: t =>
    match tryDateRelevAt (c :: t) with
    | some y => some y
    | none => searchDateRelev t

/-- `parse_statement_date_from_page` (lines 120-125) given the page's
extracted text. -/
def parse_statement_date_from_page (pageText : List Char) : Option ℕ :=
  searchDateRelev pageText

/-- `re.findall(r"(\d{4})", filename)`: non-overlapping four-digit groups,
scanned left to right. -/
def findall4 : List Char → List ℕ
  | d1 :: d2 :: d3 :: d4 :: rest =>
    if d1.isDigit ∧ d2.isDigit ∧ d3.isDigit ∧ d4.isDigit then
      natVal [d1, d2, d3, d4] :: findall4 rest
    else findall4 (d2 :: d3 :: d4 :: rest)
  | _ => []
termination_by w => w.length
decreasing_by
  · simp only [List.length_cons]; omega
  · simp only [List.length_cons]; omega

/-- `infer_year_from_filename` (lines 156-160); `datetime.now().year` is the
explicit `currentYear` argument. -/
def infer_year_from_filename (filename : List Char) (currentYear : ℕ) : ℕ :=
  match (findall4 filename).getLast? with
  | some y => y
  | none => currentYear

/-- The first branch of `determine_statement_year`: the
`Ann[ée]e\s+(\d{4})` search over a truthy `sniff.first_page_text`. -/
def headerYearFromSniff (sniff : Option FileSniff) : Option ℕ :=
  match sniff with
  | none => none
  | some s =>
    match s.first_page_text with
    | none => none
    | some t => if t = [] then none else searchAnnee t

/-- The second branch of `determine_statement_year`: reopen the pdf and run
`parse_statement_date_from_page` on the first page; every pdfplumber failure
is swallowed by `except Exception: pass`. -/
def headerYearFromReopen (env : PdfEnv) : Option ℕ :=
  match env with
  | .opened (.txt t :: _) => parse_statement_date_from_page (t.getD [])
  | _ => none

/-- `determine_statement_year` (lines 176-190), with the pdf reopen outcome
passed as `env`. -/
def determine_statement_year (sniff : Option FileSniff) (env : PdfEnv)
    (filename : List Char) (currentYear : ℕ) : ℕ :=
  match headerYearFromSniff sniff with
  | some y => y
  | none =>
    match headerYearFromReopen env with
    | some y =>
      if y ≠ 0 then y else infer_year_from_filename filename currentYear
    | none => infer_year_from_filename filename currentYear

/-! ### TD grammar (`td.py`) -/

/-- `MONTH_MAP` lookup; `none` models a missing key. -/
def monthMap (abbr : List Char) : Option ℕ :=
  if abbr = "JAN".data then some 1
  else if abbr = "FEB".data then some 2
  else if abbr = "MAR".data then some 3
  else if abbr = "APR".data then some 4
  else if abbr = "MAY".data then some 5
  else if abbr = "JUN".data then some 6
  else if abbr = "JUL".data then some 7
  else if abbr = "AUG".data then some 8
  else if abbr = "SEP".data then some 9
  else if abbr = "OCT".data then some 10
  else if abbr = "NOV".data then some 11
  else if abbr = "DEC".data then some 12
  else none

/-- ASCII uppercase letter test (`[A-Z]`). -/
def isUpperAZ (c : Char) : Bool := 'A' ≤ c ∧ c ≤ 'Z'

/-- `\d{1,2}` immediately followed by the literal `ch` (greedy with the
forced backtrack into one digit being impossible, since a digit is never the
literal): returns the value and the remainder after the literal. -/
def digits12Then (ch : Char) (w : List Char) : Option (ℕ × List Char) :=
  match w with
  | d1 :: rest =>
    if d1.isDigit then
      match rest with
      | d2 :: rest2 =>
        if d2.isDigit then
          match rest2 with
          | c :: rest3 =>
            if c = ch then some (natVal [d1, d2], rest3) else none
          | [] => none
        else
          match rest with
          | c :: rest2b =>
            if c = ch then some (natVal [d1], rest2b) else none
          | [] => none
      | [] => none
    else none
  | [] => none

/-- One endpoint `([A-Z]{3})\s*(\d{1,2})/(\d{2})` of `DATE_RANGE_RE`,
anchored; returns (month abbreviation, day, two-digit year, remainder). -/
def tryRangeEndpointAt (w : List Char) :
    Option (List Char × ℕ × ℕ × List Char) :=
  match w with
  | m1 :: m2 :: m3 :: rest =>
    if isUpperAZ m1 ∧ isUpperAZ m2 ∧ isUpperAZ m3 then
      let rest1 := rest.dropWhile isSpaceWS
      match digits12Then '/' rest1 with
      | none => none
      | some (day, rest2) =>
        match rest2 with
        | y1 :: y2 :: rest3 =>
          if y1.isDigit ∧ y2.isDigit then
            some ([m1, m2, m3], day, natVal [y1, y2], rest3)
          else none
        | _ => none
    else none
  | _ => none

/-- `DATE_RANGE_RE` anchored at the start of `w`:
`([A-Z]{3})\s*(\d{1,2})/(\d{2})-([A-Z]{3})\s*(\d{1,2})/(\d{2})`. -/
def tryDateRangeAt (w : List Char) :
    Option ((List Char × ℕ × ℕ) × (List Char × ℕ × ℕ)) :=
  match tryRangeEndpointAt w with
  | none => none
  | some (mon1, day1, yy1, rest1) =>
    match rest1 with
    | '-' :: rest2 =>
      match tryRangeEndpointAt rest2 with
      | none => none
      | some (mon2, day2, yy2, _) => some ((mon1, day1, yy1), (mon2, day2, yy2))
    | _ => none

/-- `DATE_RANGE_RE.search(text)`: leftmost match. -/
def searchDateRange (w : List Char) :
    Option ((List Char × ℕ × ℕ) × (List Char × ℕ × ℕ)) :=
  match w with
  | [] => none
  | _ :: t =>
    match tryDateRangeAt w with
    | some r => some r
    | none => searchDateRange t

/-- `parse_date_range(text)` from `td.py` (lines 31-46): start and end
`(year, month, day)` triples, with `2000 + yy` years and
`MONTH_MAP.get(mon, 0)` months. -/
def parse_date_range (text : List Char) :
    Option ((ℕ × ℕ × ℕ) × (ℕ × ℕ × ℕ)) :=
  match searchDateRange text with
  | none => none
  | some ((mon1, day1, yy1), (mon2, day2, yy2)) =>
    some ((2000 + yy1, (monthMap mon1).getD 0, day1),
      (2000 + yy2, (monthMap mon2).getD 0, day2))

/-- `normalize_amount(raw)` from `td.py` (lines 49-56):
`float(raw.replace(",", ""))`, `none` for the empty string or on
`ValueError`. -/
def normalize_amount (raw : List Char) : Option ℚ :=
  if raw = [] then none
  else pyFloat (raw.filter (fun c => ¬ (c = ',')))

/-- `choose_year(month, start, end)` from `td.py` (lines 59-65). -/
def choose_year (month : ℕ) (s e : ℕ × ℕ × ℕ) : ℕ :=
  if s.1 = e.1 then s.1
  else if month < s.2.1 then e.1 else s.1

/-- `parse_date_token(token, start, end)` from `td.py` (lines 68-80):
`re.match(r"([A-Z]{3})\s*(\d{1,2})", token)` then month lookup, year choice
and `date(...)` validation. -/
def parse_date_token (token : List Char) (s e : ℕ × ℕ × ℕ) : Option PyDate :=
  match token with
  | m1 :: m2 :: m3 :: rest =>
    if isUpperAZ m1 ∧ isUpperAZ m2 ∧ isUpperAZ m3 then
      let rest1 := rest.dropWhile isSpaceWS
      match rest1 with
      | d1 :: rest2 =>
        if d1.isDigit then
          let day :=
            match rest2 with
            | d2 :: _ => if d2.isDigit then natVal [d1, d2] else natVal [d1]
            | [] => natVal [d1]
          match monthMap [m1, m2, m3] with
          | none => none
          | some month =>
            if month = 0 then none
            else mkDate (choose_year month s e) month day
        else none
      | [] => none
    else none
  | _ => none

/-- Token shape `-?\d[\d,]*\.\d{2}` (`re.fullmatch`, used by
`split_amounts`). -/
def isAmountToken (t : List Char) : Bool :=
  let t1 := if t.head? == some '-' then t.tail else t
  match t1.reverse with
  | b :: a :: '.' :: preRev =>
    (b.isDigit && a.isDigit) &&
      (match preRev.reverse with
       | [] => false
       | c :: restPre => c.isDigit && restPre.all (fun x => x.isDigit || x = ','))
  | _ => false

/-- `split_amounts(tokens)` from `td.py` (lines 83-101): the maximal trailing
run of amount-shaped tokens is split off, preserving order. -/
def split_amounts (tokens : List (List Char)) :
    List (List Char) × List (List Char) :=
  let run := tokens.reverse.takeWhile isAmountToken
  ((tokens.reverse.drop run.length).reverse, run.reverse)

/-- The amount-column selection of `parse_transaction_line` (`td.py`,
lines 130-157): normalise every amount token; with two or more columns the
first two are (withdrawal, deposit) and a non-zero deposit wins, negated;
with one column it is the signed amount. -/
def computeAmountValue (amountTokens : List (List Char)) : Option ℚ :=
  if amountTokens = [] then none
  else
    let amounts := amountTokens.map normalize_amount
    if amounts.any (fun a => a.isNone) then none
    else
      match amounts with
      | w :: d :: _ =>
        match d with
        | some dep => if dep ≠ 0 then some (-dep) else w
        | none => none
      | [a] => a
      | [] => none

/-- A TD transaction record (fields of the dict built by
`parse_transaction_line`). -/
structure TDTx where
  transaction_date : PyDate
  description : List Char
  description_raw : List Char
  amount : ℚ
  is_payment : Bool
deriving DecidableEq, Repr

/-- Month-abbreviation alternation
`(JAN|FEB|MAR|APR|MAY|JUN|JUL|AUG|SEP|OCT|NOV|DEC)` in source order. -/
def monthAbbrevs : List (List Char) :=
  ["JAN".data, "FEB".data, "MAR".data, "APR".data, "MAY".data, "JUN".data,
   "JUL".data, "AUG".data, "SEP".data, "OCT".data, "NOV".data, "DEC".data]

/-- Match of `(JAN|...|DEC)\s?\d{1,2}` anchored at the start of `w`:
returns the matched text. -/
def tryLineDateAt (w : List Char) : Option (List Char) :=
  match monthAbbrevs.find? (fun ab => ab.isPrefixOf w) with
  | none => none
  | some ab =>
    let rest := w.drop 3
    match rest with
    | c :: rest2 =>
      if isSpaceWS c then
        match rest2 with
        | d1 :: rest3 =>
          if d1.isDigit then
            match rest3 with
            | d2 :: _ =>
              if d2.isDigit then some (ab ++ [c, d1, d2]) else some (ab ++ [c, d1])
            | [] => some (ab ++ [c, d1])
          else none
        | [] => none
      else if c.isDigit then
        match rest2 with
        | d2 :: _ => if d2.isDigit then some (ab ++ [c, d2]) else some (ab ++ [c])
        | [] => some (ab ++ [c])
      else none
    | [] => none

/-- `re.search` of the transaction-date pattern over the uppercased line:
leftmost match. -/
def searchLineDate : List Char → Option (List Char)
  | [] => none
  | c :: t =>
    match tryLineDateAt (c :: t) with
    | some r => some r
    | none => searchLineDate t

/-- `date_token.replace(" ", "")`. -/
def dropSpacesAll (w : List Char) : List Char := w.filter (fun c => ¬ (c = ' '))

/-- Whether `pat` occurs as a contiguous substring (Python `in`). -/
def containsSub (pat w : List Char) : Bool :=
  (List.range (w.length + 1)).any (fun i => pat.isPrefixOf (w.drop i))

/-- The token split `tokens[:date_idx]` of `parse_transaction_line`: the
line's whitespace tokens strictly before the first token containing the
(space-stripped, uppercased) date text. -/
def lineBeforeDate (tokens : List (List Char)) (dateNoSpace : List Char) :
    Option (List (List Char)) :=
  match tokens.findIdx? (fun tok => containsSub dateNoSpace (pyUpper tok)) with
  | none => none
  | some i => some (tokens.take i)

/-- `parse_transaction_line(line, start, end)` from `td.py`
(lines 104-165). -/
def parse_transaction_line (line : List Char) (s e : ℕ × ℕ × ℕ) :
    Option TDTx :=
  let lineClean := stripWS line
  if lineClean = [] then none
  else
    let upper := pyUpper lineClean
    if ("STARTING".data).isPrefixOf upper ∨ ("CLOSING".data).isPrefixOf upper then
      none
    else
      match searchLineDate upper with
      | none => none
      | some dateToken =>
        let tokens := pySplitWS lineClean
        match lineBeforeDate tokens (dropSpacesAll dateToken) with
        | none => none
        | some beforeDate =>
          let split := split_amounts beforeDate
          if split.2 = [] then none
          else
            match parse_date_token (dropSpacesAll dateToken) s e with
            | none => none
            | some txDate =>
              let descriptionToks := split.1
              let description := stripWS (List.intercalate [' '] descriptionToks)
              if description = [] then none
              else
                match computeAmountValue split.2 with
                | none => none
                | some amountValue =>
                  some
                    { transaction_date := txDate
                      description := description
                      description_raw := List.intercalate [' '] descriptionToks
                      amount := amountValue
                      is_payment := containsSub ("PAYMENT".data) upper }

/-! ### Desjardins grammar: per-file extraction wrapper
(`desjardins.py`, lines 41-117).  Page reading is modelled by the outcome of
the pdfplumber calls: each page either raises or delivers the raw rows that
`parse_page_transactions` extracts from its text. -/

/-- One page inside `DesjardinsParser.parse_file`'s loop. -/
inductive DesjPage where
  | err : DesjPage
  | rows : List RawRow → DesjPage
deriving DecidableEq, Repr

/-- The pdfplumber interaction of `DesjardinsParser.parse_file`. -/
inductive DesjPdf where
  | openFail : DesjPdf
  | opened : List DesjPage → DesjPdf
deriving DecidableEq, Repr

/-- The page loop of `DesjardinsParser.parse_file`: transactions and the
skipped count accumulate across pages; a pdfplumber exception on any page
aborts the whole call (re-raised as `RuntimeError`, lines 114-115). -/
def desjPageLoop (year : ℕ) :
    List DesjPage → Except (List Char) (List DesjTx × ℕ)
  | [] => .ok ([], 0)
  | .err :: _ => .error ("Failed to read".data)
  | .rows rs :: rest =>
    match desjPageLoop year rest with
    | .error e => .error e
    | .ok (txs, skipped) =>
      let page := processRows year rs
      .ok (page.1 ++ txs, page.2 + skipped)

/-- `DesjardinsParser.parse_file` given the already-determined year and the
pdfplumber outcome: `.error` models the `RuntimeError` raised on an
unreadable document. -/
def desj_parse_file (year : ℕ) (env : DesjPdf) :
    Except (List Char) (List DesjTx × ℕ) :=
  match env with
  | .openFail => .error ("Failed to read".data)
  | .opened pages => desjPageLoop year pages

/-! ### Dispatcher / registry (`driver.py`, `registry.py`)

A grammar is its `name`, `can_parse` predicate and `parse_file` extraction;
`parse_file` returns `Except`, modelling a raised exception.  The fatal
errors raised by the driver are embedded structurally, carrying exactly the
data interpolated into the Python error messages. -/

/-- An institution grammar (`BankStatementParser`), with rows of type `α`. -/
structure Grammar (α : Type) where
  name : String
  canParse : String → FileSniff → Bool
  parseFile : String → FileSniff → Except String (List α)

/-- The fatal errors of the driver.  `forcedMismatch` carries the forced
grammar's name and the file path (`"Forced parser '{name}' cannot parse
file: {path}"`); `multipleMatch` carries the path and every accepting
grammar's name (`"Multiple parsers match file {path}: {names}"`);
`parseFailure` carries a parsing exception propagated out of
`parse_file`. -/
inductive DriverError where
  | forcedMismatch : String → String → DriverError
  | multipleMatch : String → List String → DriverError
  | parseFailure : String → DriverError
deriving DecidableEq, Repr

/-- The parser-resolution function of `driver.py` (lines 36-48), named
`resolve` + `Grammar` here. -/
def resolveGrammar {α : Type} (path : String) (sniff : FileSniff)
    (forced : Option (Grammar α)) (available : List (Grammar α)) :
    Except DriverError (Option (Grammar α)) :=
  match forced with
  | some f =>
    if f.canParse path sniff then .ok (some f)
    else .error (.forcedMismatch f.name path)
  | none =>
    let ms := available.filter (fun p => p.canParse path sniff)
    match ms with
    | [] => .ok none
    | [p] => .ok (some p)
    | _ => .error (.multipleMatch path (ms.map (fun p => p.name)))

/-- The per-file loop of `parse_statements` (`driver.py`, lines 59-74),
threading the accumulated ledger (each row tagged with its grammar's name,
`df["parser"] = parser.name`) and the unmatched list. -/
def parseBatch {α : Type} (forced : Option (Grammar α))
    (available : List (Grammar α)) :
    List (String × FileSniff) → List (α × String) → List String →
      Except DriverError (List (α × String) × List String)
  | [], ledger, unmatched => .ok (ledger, unmatched)
  | (path, sniff) :: rest, ledger, unmatched =>
    match resolveGrammar path sniff forced available with
    | .error e => .error e
    | .ok none => parseBatch forced available rest ledger (unmatched ++ [path])
    | .ok (some p) =>
      match p.parseFile path sniff with
      | .error msg => .error (.parseFailure msg)
      | .ok rows =>
        parseBatch forced available rest
          (ledger ++ rows.map (fun r => (r, p.name))) unmatched

/-- `parse_statements` (`driver.py`, lines 51-74) over an already sniffed
file list: the combined tagged ledger plus the unmatched paths, or the first
fatal error. -/
def parse_statements {α : Type} (files : List (String × FileSniff))
    (forced : Option (Grammar α)) (available : List (Grammar α)) :
    Except DriverError (List (α × String) × List String) :=
  parseBatch forced available files [] []


/-! Concrete grammars used to exercise the dispatcher. -/

/-- A grammar accepting every file. -/
def exGrammarA : Grammar Unit :=
  { name := "alpha", canParse := fun _ _ => true,
    parseFile := fun _ _ => .ok [()] }

/-- A second grammar accepting every file. -/
def exGrammarB : Grammar Unit :=
  { name := "beta", canParse := fun _ _ => true,
    parseFile := fun _ _ => .ok [] }

/-- A grammar accepting no file. -/
def exGrammarNone : Grammar Unit :=
  { name := "gamma", canParse := fun _ _ => false,
    parseFile := fun _ _ => .ok [] }

/-- A grammar whose extraction raises. -/
def exGrammarBoom : Grammar Unit :=
  { name := "delta", canParse := fun _ _ => true,
    parseFile := fun _ _ => .error "boom" }

/-- A fixed sniff value for the dispatcher examples. -/
def exSniff : FileSniff := { extension := ".pdf".data }

/-! ## Theorems -/

/-! ### Reconciliation lemmas -/

theorem findMatch_mem {td : Finset ℕ} {cands : List (ℕ × ℚ)} {camt tol : ℚ}
    {j : ℕ} (h : findMatch td cands camt tol = some j) :
    ∃ a, (j, a) ∈ cands := by
  induction cands with
  | nil => simp [findMatch] at h
  | cons p rest ih =>
    obtain ⟨k, a⟩ := p
    simp only [findMatch] at h
    split at h
    · obtain ⟨b, hb⟩ := ih h
      exact ⟨b, List.mem_cons_of_mem _ hb⟩
    · split at h
      · cases h
        exact ⟨a, List.mem_cons_self _ _⟩
      · obtain ⟨b, hb⟩ := ih h
        exact ⟨b, List.mem_cons_of_mem _ hb⟩

theorem debitGroup_mem {df : List LRow} {d : String} {j : ℕ} {a : ℚ}
    (h : (j, a) ∈ debitGroup df d) :
    ∃ r, (j, r) ∈ df.enum ∧ 0 < r.amount ∧ r.description = d ∧ r.amount = a := by
  unfold debitGroup at h
  obtain ⟨⟨pi, pr⟩, hp, hsel⟩ := List.mem_filterMap.mp h
  obtain ⟨hpmem, hpos⟩ := List.mem_filter.mp hp
  by_cases hd : pr.description = d
  · rw [if_pos hd] at hsel
    have h1 := Option.some.inj hsel
    have hj : pi = j := congrArg Prod.fst h1
    have ha : pr.amount = a := congrArg Prod.snd h1
    exact ⟨pr, hj ▸ hpmem, of_decide_eq_true hpos, hd, ha⟩
  · rw [if_neg hd] at hsel
    cases hsel

theorem findMatch_eq_specScan {c : LRow} (hc : c.amount < 0) (tol : ℚ) :
    ∀ (L : List (ℕ × LRow)) (td : Finset ℕ),
      findMatch td
        ((L.filter (fun p => decide (0 < p.2.amount))).filterMap
          (fun p =>
            if p.2.description = c.description then some (p.1, p.2.amount)
            else none))
        c.amount tol
      = specScan td c tol L := by
  intro L
  induction L with
  | nil => intro td; simp [findMatch, specScan]
  | cons p rest ih =>
    intro td
    obtain ⟨j, r⟩ := p
    by_cases hpos : 0 < r.amount
    · by_cases hdesc : r.description = c.description
      · by_cases hj : j ∈ td
        · simp [List.filter_cons, hpos, List.filterMap_cons, hdesc, specScan,
            findMatch, hj, ih td]
        · have habs : |(|r.amount|) - (|c.amount|)| = |r.amount + c.amount| := by
            rw [abs_of_pos hpos, abs_of_neg hc]
            ring_nf
          by_cases htol : |r.amount + c.amount| ≤ tol
          · simp [List.filter_cons, hpos, List.filterMap_cons, hdesc, specScan,
              findMatch, hj, habs, htol]
          · simp [List.filter_cons, hpos, List.filterMap_cons, hdesc, specScan,
              findMatch, hj, habs, htol, ih td]
      · simp [List.filter_cons, hpos, List.filterMap_cons, hdesc, specScan,
          findMatch, ih td]
    · simp [List.filter_cons, hpos, specScan, ih td]

theorem creditsOf_neg {df : List LRow} {p : ℕ × LRow} (h : p ∈ creditsOf df) :
    p.2.amount < 0 :=
  of_decide_eq_true (List.mem_filter.mp h).2

theorem creditsOf_mem_enum {df : List LRow} {p : ℕ × LRow}
    (h : p ∈ creditsOf df) : p ∈ df.enum :=
  (List.mem_filter.mp h).1

theorem reconLoop_eq_specLoop (df : List LRow) (tol : ℚ) :
    ∀ (L : List (ℕ × LRow)), (∀ p ∈ L, p.2.amount < 0) →
      ∀ td, reconLoop df tol L td = specLoop df tol L td := by
  intro L
  induction L with
  | nil => intro _ td; rfl
  | cons p rest ih =>
    intro hneg td
    obtain ⟨i, c⟩ := p
    have hc : c.amount < 0 := hneg (i, c) (List.mem_cons_self _ _)
    have hrest : ∀ q ∈ rest, q.2.amount < 0 := fun q hq =>
      hneg q (List.mem_cons_of_mem _ hq)
    have hscan := findMatch_eq_specScan hc tol df.enum td
    simp only [reconLoop, specLoop, debitGroup, hscan]
    cases specScan td c tol df.enum with
    | none => exact ih hrest _
    | some j => exact ih hrest _

theorem reconDrops_eq_specDrops (df : List LRow) (tol : ℚ) :
    reconDrops df tol = specDrops df tol :=
  reconLoop_eq_specLoop df tol (creditsOf df)
    (fun _ hp => creditsOf_neg hp) ∅

theorem subset_reconLoop (df : List LRow) (tol : ℚ) :
    ∀ (L : List (ℕ × LRow)) (td : Finset ℕ), td ⊆ reconLoop df tol L td := by
  intro L
  induction L with
  | nil => intro td; exact Finset.Subset.refl td
  | cons p rest ih =>
    intro td
    obtain ⟨i, c⟩ := p
    simp only [reconLoop]
    cases findMatch td (debitGroup df c.description) c.amount tol with
    | none =>
      exact fun x hx => ih _ (Finset.mem_insert_of_mem hx)
    | some j =>
      exact fun x hx =>
        ih _ (Finset.mem_insert_of_mem (Finset.mem_insert_of_mem hx))

theorem credit_mem_reconLoop (df : List LRow) (tol : ℚ) :
    ∀ (L : List (ℕ × LRow)) (td : Finset ℕ) (i : ℕ) (c : LRow),
      (i, c) ∈ L → i ∈ reconLoop df tol L td := by
  intro L
  induction L with
  | nil => intro td i c h; cases h
  | cons p rest ih =>
    intro td i c h
    obtain ⟨k, r⟩ := p
    rcases List.mem_cons.mp h with heq | hmem
    · obtain ⟨hik, _⟩ := Prod.mk.injEq .. ▸ heq
      subst hik
      simp only [reconLoop]
      cases findMatch td (debitGroup df r.description) r.amount tol with
      | none => exact subset_reconLoop df tol rest _ (Finset.mem_insert_self _ _)
      | some j =>
        exact subset_reconLoop df tol rest _
          (Finset.mem_insert_of_mem (Finset.mem_insert_self _ _))
    · simp only [reconLoop]
      cases findMatch td (debitGroup df r.description) r.amount tol with
      | none => exact ih _ i c hmem
      | some j => exact ih _ i c hmem

theorem reconLoop_mem_cases (df : List LRow) (tol : ℚ) :
    ∀ (L : List (ℕ × LRow)) (td : Finset ℕ) (j : ℕ),
      j ∈ reconLoop df tol L td →
        j ∈ td ∨ (∃ c, (j, c) ∈ L) ∨
          (∃ r, (j, r) ∈ df.enum ∧ 0 < r.amount) := by
  intro L
  induction L with
  | nil => intro td j h; exact Or.inl h
  | cons p rest ih =>
    intro td j h
    obtain ⟨i, c⟩ := p
    simp only [reconLoop] at h
    cases hfm : findMatch td (debitGroup df c.description) c.amount tol with
    | none =>
      rw [hfm] at h
      rcases ih _ j h with hin | hrest | hdeb
      · rcases Finset.mem_insert.mp hin with hji | hjtd
        · exact Or.inr (Or.inl ⟨c, hji ▸ List.mem_cons_self _ _⟩)
        · exact Or.inl hjtd
      · obtain ⟨c', hc'⟩ := hrest
        exact Or.inr (Or.inl ⟨c', List.mem_cons_of_mem _ hc'⟩)
      · exact Or.inr (Or.inr hdeb)
    | some m =>
      rw [hfm] at h
      rcases ih _ j h with hin | hrest | hdeb
      · rcases Finset.mem_insert.mp hin with hjm | hin2
        · obtain ⟨a, ha⟩ := findMatch_mem hfm
          obtain ⟨r, hr, hrpos, _, _⟩ := debitGroup_mem ha
          exact Or.inr (Or.inr ⟨r, hjm ▸ hr, hrpos⟩)
        · rcases Finset.mem_insert.mp hin2 with hji | hjtd
          · exact Or.inr (Or.inl ⟨c, hji ▸ List.mem_cons_self _ _⟩)
          · exact Or.inl hjtd
      · obtain ⟨c', hc'⟩ := hrest
        exact Or.inr (Or.inl ⟨c', List.mem_cons_of_mem _ hc'⟩)
      · exact Or.inr (Or.inr hdeb)

theorem mem_enum_lt {α : Type} {l : List α} {p : ℕ × α} (h : p ∈ l.enum) :
    p.1 < l.length := by
  have h2 := List.mem_enum_iff_getElem?.mp h
  by_contra hlt
  rw [List.getElem?_eq_none (by omega)] at h2
  cases h2

theorem reconDrops_subset_range (df : List LRow) (tol : ℚ) :
    reconDrops df tol ⊆ Finset.range df.length := by
  intro j hj
  rcases reconLoop_mem_cases df tol (creditsOf df) ∅ j hj with hin | hcred | hdeb
  · cases hin
  · obtain ⟨c, hc⟩ := hcred
    exact Finset.mem_range.mpr (mem_enum_lt (creditsOf_mem_enum hc))
  · obtain ⟨r, hr, _⟩ := hdeb
    exact Finset.mem_range.mpr (mem_enum_lt hr)

theorem countP_range_mem (td : Finset ℕ) :
    ∀ n, (List.range n).countP (fun i => decide (i ∈ td)) =
      (td.filter (fun i => i < n)).card := by
  intro n
  induction n with
  | zero =>
    simp [Finset.filter_false_of_mem]
  | succ n ih =>
    rw [List.range_succ, List.countP_append, ih]
    have hsplit : td.filter (fun i => i < n + 1) =
        td.filter (fun i => i < n) ∪ td.filter (fun i => i = n) := by
      rw [← Finset.filter_or]
      apply Finset.filter_congr
      intro x _
      simp [Nat.lt_succ_iff_lt_or_eq]
    have hdisj : Disjoint (td.filter (fun i => i < n))
        (td.filter (fun i => i = n)) := by
      rw [Finset.disjoint_left]
      intro x hx1 hx2
      have h1 := (Finset.mem_filter.mp hx1).2
      have h2 := (Finset.mem_filter.mp hx2).2
      omega
    rw [hsplit, Finset.card_union_of_disjoint hdisj]
    have heq : td.filter (fun i => i = n) = if n ∈ td then {n} else ∅ :=
      Finset.filter_eq' td n
    by_cases hn : n ∈ td
    · simp [heq, hn, List.countP_cons]
    · simp [heq, hn, List.countP_cons]

theorem filter_card_le (td : Finset ℕ) (n : ℕ) :
    (td.filter (fun i => i < n)).card ≤ n := by
  have hsub : td.filter (fun i => i < n) ⊆ Finset.range n := by
    intro x hx
    exact Finset.mem_range.mpr (Finset.mem_filter.mp hx).2
  calc (td.filter (fun i => i < n)).card ≤ (Finset.range n).card :=
        Finset.card_le_card hsub
    _ = n := Finset.card_range n

theorem countP_range_not_mem (td : Finset ℕ) :
    ∀ n, (List.range n).countP (fun i => decide (i ∉ td)) =
      n - (td.filter (fun i => i < n)).card := by
  intro n
  induction n with
  | zero =>
    simp [Finset.filter_false_of_mem]
  | succ n ih =>
    rw [List.range_succ, List.countP_append, ih]
    have hsplit : td.filter (fun i => i < n + 1) =
        td.filter (fun i => i < n) ∪ td.filter (fun i => i = n) := by
      rw [← Finset.filter_or]
      apply Finset.filter_congr
      intro x _
      simp [Nat.lt_succ_iff_lt_or_eq]
    have hdisj : Disjoint (td.filter (fun i => i < n))
        (td.filter (fun i => i = n)) := by
      rw [Finset.disjoint_left]
      intro x hx1 hx2
      have h1 := (Finset.mem_filter.mp hx1).2
      have h2 := (Finset.mem_filter.mp hx2).2
      omega
    rw [hsplit, Finset.card_union_of_disjoint hdisj]
    have heq : td.filter (fun i => i = n) = if n ∈ td then {n} else ∅ :=
      Finset.filter_eq' td n
    have hle := filter_card_le td n
    by_cases hn : n ∈ td
    · simp only [heq, hn, if_true, Finset.card_singleton]
      simp [hn, List.countP_cons]
    · simp only [heq, hn, if_false, Finset.card_empty]
      simp [hn, List.countP_cons]
      omega

theorem filter_not_mem_length {df : List LRow} {td : Finset ℕ}
    (h : td ⊆ Finset.range df.length) :
    (df.enum.filter (fun p => decide (p.1 ∉ td))).length = df.length - td.card := by
  rw [← List.countP_eq_length_filter]
  have hmap : df.enum.countP (fun p => decide (p.1 ∉ td)) =
      (df.enum.map Prod.fst).countP (fun i => decide (i ∉ td)) := by
    rw [List.countP_map]
    rfl
  have hfull : td.filter (fun i => i < df.length) = td := by
    apply Finset.filter_true_of_mem
    intro x hx
    exact Finset.mem_range.mp (h hx)
  rw [hmap, List.enum_map_fst, countP_range_not_mem, hfull]

/-- C1: Credit/debit reconciliation.  For the fixed tolerance `0.01`:
the drop set of `reconcile_reimbursements` equals the specification-side
drop set — every credit (`amount < 0`) is dropped, and a debit
(`amount > 0`) is dropped exactly when it is the first not-yet-consumed
debit, in ledger iteration order, with an identical description and a
magnitude within `0.01` of some credit's magnitude (`specDrops`); moreover
every credit index is in the drop set, and the second component returned is
the number of dropped rows. -/
theorem C1_reconciliation (df : List LRow) :
    reconDrops df (1/100) = specDrops df (1/100)
    ∧ (∀ i r, df[i]? = some r → r.amount < 0 → i ∈ reconDrops df (1/100))
    ∧ (reconcile_reimbursements df (1/100)).2 = (reconDrops df (1/100)).card
    ∧ (reconcile_reimbursements df (1/100)).1.length
        = df.length - (reconDrops df (1/100)).card := by
  refine ⟨reconDrops_eq_specDrops df (1/100), ?_, rfl, ?_⟩
  · intro i r h hneg
    have hmem : (i, r) ∈ df.enum := List.mem_enum_iff_getElem?.mpr h
    have hcred : (i, r) ∈ creditsOf df :=
      List.mem_filter.mpr ⟨hmem, decide_eq_true hneg⟩
    exact credit_mem_reconLoop df (1/100) (creditsOf df) ∅ i r hcred
  · simp only [reconcile_reimbursements, List.length_map]
    exact filter_not_mem_length (reconDrops_subset_range df (1/100))

/-- Witness for C1: one credit `-20.00` with no matching debit is dropped,
and with one unrelated debit present the function reports exactly one
dropped row. -/
theorem C1_reconciliation_witness :
    (0 : ℕ) ∈ reconDrops [⟨"REFUND X", -20⟩, ⟨"OTHER", 50⟩] (1/100) ∧
    (reconcile_reimbursements [⟨"REFUND X", -20⟩, ⟨"OTHER", 50⟩] (1/100)).2
      = 1 := by
  constructor
  · exact (C1_reconciliation [⟨"REFUND X", -20⟩, ⟨"OTHER", 50⟩]).2.1 0
      ⟨"REFUND X", -20⟩ rfl (by norm_num)
  · decide

/-- C10: a row whose amount is exactly `0` is neither a credit nor a debit
for the reconciler: its index is never in the drop set (so it can never be
consumed as a match) and the row survives in the output of
`reconcile_reimbursements`. -/
theorem C10_zero_amount_survives (df : List LRow) (tol : ℚ) (i : ℕ)
    (r : LRow) (h : df[i]? = some r) (hz : r.amount = 0) :
    i ∉ reconDrops df tol ∧ r ∈ (reconcile_reimbursements df tol).1 := by
  have hmem : (i, r) ∈ df.enum := List.mem_enum_iff_getElem?.mpr h
  have hnot : i ∉ reconDrops df tol := by
    intro hin
    rcases reconLoop_mem_cases df tol (creditsOf df) ∅ i hin with
      h0 | hcred | hdeb
    · cases h0
    · obtain ⟨c, hc⟩ := hcred
      have hc2 := List.mem_enum_iff_getElem?.mp (creditsOf_mem_enum hc)
      have hneg := creditsOf_neg hc
      simp only at hc2
      rw [h] at hc2
      have : c = r := (Option.some.inj hc2).symm
      rw [this, hz] at hneg
      exact absurd hneg (by norm_num)
    · obtain ⟨r', hr', hpos⟩ := hdeb
      have hr2 := List.mem_enum_iff_getElem?.mp hr'
      simp only at hr2
      rw [h] at hr2
      have : r' = r := (Option.some.inj hr2).symm
      rw [this, hz] at hpos
      exact absurd hpos (by norm_num)
  refine ⟨hnot, ?_⟩
  simp only [reconcile_reimbursements]
  exact List.mem_map.mpr
    ⟨(i, r), List.mem_filter.mpr ⟨hmem, decide_eq_true hnot⟩, rfl⟩

/-- Witness for C10: the zero-amount row of a concrete ledger survives. -/
theorem C10_zero_amount_survives_witness :
    (1 : ℕ) ∉ reconDrops [⟨"A", -3⟩, ⟨"A", 0⟩, ⟨"A", 3⟩] (1/100) ∧
    (⟨"A", 0⟩ : LRow) ∈
      (reconcile_reimbursements [⟨"A", -3⟩, ⟨"A", 0⟩, ⟨"A", 3⟩] (1/100)).1 :=
  C10_zero_amount_survives [⟨"A", -3⟩, ⟨"A", 0⟩, ⟨"A", 3⟩] (1/100) 1
    ⟨"A", 0⟩ rfl rfl

/-! ### Sniffer theorems -/

/-- C9: `sniff_file` is total (it is a plain function into `FileSniff`); an
unreadable document, an empty page list or a failing first-page text
extraction all yield an absent `first_page_text` instead of an error, the
extension field is always the lowercased `splitext` extension, and the
result depends only on the first page: pages after the first are never
read. -/
theorem C9_sniffer_total (path : List Char) :
    sniff_file path .openFail = { extension := extLower path }
    ∧ sniff_file path (.opened []) = { extension := extLower path }
    ∧ (∀ rest, sniff_file path (.opened (.err :: rest)) =
        { extension := extLower path })
    ∧ (∀ env, (sniff_file path env).extension = extLower path)
    ∧ (∀ pg rest1 rest2, sniff_file path (.opened (pg :: rest1)) =
        sniff_file path (.opened (pg :: rest2))) := by
  refine ⟨?_, ?_, ?_, ?_, ?_⟩
  · simp [sniff_file]
  · simp [sniff_file]
  · intro rest
    simp [sniff_file]
  · intro env
    cases env with
    | openFail => simp [sniff_file]
    | opened pages =>
      cases pages with
      | nil => simp [sniff_file]
      | cons pg rest =>
        cases pg
        · simp [sniff_file]
        · simp only [sniff_file]
          split <;> rfl
  · intro pg rest1 rest2
    cases pg <;> rfl

/-! ### Dispatcher theorems -/

/-- C2: dispatcher resolution.  With no forced grammar: zero accepting
grammars resolve to `none` (and `parse_statements` records the file as
unmatched and continues); exactly one accepting grammar is selected; two or
more accepting grammars give a fatal error carrying the path and every
accepting grammar's name.  A forced grammar must accept the file or the
batch fails with an error carrying the grammar's name and the path. -/
theorem C2_dispatcher {α : Type} (path : String) (sniff : FileSniff)
    (available : List (Grammar α)) :
    (available.filter (fun g => g.canParse path sniff) = [] →
      resolveGrammar path sniff none available = .ok none)
    ∧ (∀ p, available.filter (fun g => g.canParse path sniff) = [p] →
      resolveGrammar path sniff none available = .ok (some p))
    ∧ (∀ p q rest,
        available.filter (fun g => g.canParse path sniff) = p :: q :: rest →
        resolveGrammar path sniff none available =
          .error (.multipleMatch path ((p :: q :: rest).map (fun g => g.name))))
    ∧ (∀ f : Grammar α, f.canParse path sniff = true →
        resolveGrammar path sniff (some f) available = .ok (some f))
    ∧ (∀ f : Grammar α, f.canParse path sniff = false →
        resolveGrammar path sniff (some f) available =
          .error (.forcedMismatch f.name path))
    ∧ (∀ rest ledger unmatched,
        available.filter (fun g => g.canParse path sniff) = [] →
        parseBatch none available ((path, sniff) :: rest) ledger unmatched =
          parseBatch none available rest ledger (unmatched ++ [path])) := by
  refine ⟨?_, ?_, ?_, ?_, ?_, ?_⟩
  · intro h
    simp [resolveGrammar, h]
  · intro p h
    simp [resolveGrammar, h]
  · intro p q rest h
    simp [resolveGrammar, h]
  · intro f h
    simp [resolveGrammar, h]
  · intro f h
    simp [resolveGrammar, h]
  · intro rest ledger unmatched h
    have hres : resolveGrammar path sniff none available = .ok none := by
      simp [resolveGrammar, h]
    simp [parseBatch, hres]

/-- Witness for C2: concrete batches exercising all four outcomes. -/
theorem C2_dispatcher_witness :
    resolveGrammar "f.pdf" exSniff none [exGrammarA, exGrammarB] =
      .error (.multipleMatch "f.pdf" ["alpha", "beta"])
    ∧ resolveGrammar "f.pdf" exSniff none [exGrammarNone] = .ok none
    ∧ resolveGrammar "f.pdf" exSniff (some exGrammarA) [exGrammarNone] =
      .ok (some exGrammarA)
    ∧ resolveGrammar "f.pdf" exSniff (some exGrammarNone) [exGrammarNone] =
      .error (.forcedMismatch "gamma" "f.pdf")
    ∧ parse_statements [("f.pdf", exSniff)] none [exGrammarNone] =
      .ok ([], ["f.pdf"]) := by
  refine ⟨?_, ?_, ?_, ?_, ?_⟩
  · exact (C2_dispatcher "f.pdf" exSniff [exGrammarA, exGrammarB]).2.2.1
      exGrammarA exGrammarB [] rfl
  · exact (C2_dispatcher "f.pdf" exSniff [exGrammarNone]).1 rfl
  · exact (C2_dispatcher "f.pdf" exSniff [exGrammarNone]).2.2.2.1
      exGrammarA rfl
  · exact (C2_dispatcher "f.pdf" exSniff [exGrammarNone]).2.2.2.2.1
      exGrammarNone rfl
  · have h := (C2_dispatcher (α := Unit) "f.pdf" exSniff
      [exGrammarNone]).2.2.2.2.2 [] [] [] rfl
    exact h.trans rfl

theorem parseBatch_append {α : Type} (forced : Option (Grammar α))
    (available : List (Grammar α)) :
    ∀ (l1 l2 : List (String × FileSniff)) (ledger : List (α × String))
        (unmatched : List String),
      parseBatch forced available (l1 ++ l2) ledger unmatched =
        match parseBatch forced available l1 ledger unmatched with
        | .ok (d, u) => parseBatch forced available l2 d u
        | .error e => .error e := by
  intro l1
  induction l1 with
  | nil => intro l2 ledger unmatched; rfl
  | cons f rest ih =>
    intro l2 ledger unmatched
    obtain ⟨path, sniff⟩ := f
    cases hres : resolveGrammar path sniff forced available with
    | error e => simp [List.cons_append, parseBatch, hres]
    | ok og =>
      cases og with
      | none =>
        simp only [List.cons_append, parseBatch, hres]
        exact ih l2 ledger (unmatched ++ [path])
      | some p =>
        cases hpf : p.parseFile path sniff with
        | error msg => simp [List.cons_append, parseBatch, hres, hpf]
        | ok rows =>
          simp only [List.cons_append, parseBatch, hres, hpf]
          exact ih l2 _ unmatched

theorem desjPageLoop_err (year : ℕ) :
    ∀ pages : List DesjPage, DesjPage.err ∈ pages →
      desjPageLoop year pages = .error ("Failed to read".data) := by
  intro pages
  induction pages with
  | nil => intro h; cases h
  | cons pg rest ih =>
    intro h
    cases pg with
    | err => rfl
    | rows rs =>
      have hrest : DesjPage.err ∈ rest := by
        rcases List.mem_cons.mp h with heq | hmem
        · cases heq
        · exact hmem
      simp only [desjPageLoop, ih hrest]

/-- C8: batch fail-fast.  If every file before `bad` processes cleanly and
`bad`'s grammar raises during extraction, the whole `parse_statements` call
returns that error, whatever files follow `bad` (they are never parsed); and
`DesjardinsParser.parse_file` itself raises (rather than returning rows) on
an unreadable document or a failing page. -/
theorem C8_batch_fail_fast {α : Type} (files1 : List (String × FileSniff))
    (bad : String × FileSniff) (rest : List (String × FileSniff))
    (forced : Option (Grammar α)) (available : List (Grammar α))
    (p : Grammar α) (msg : String) (d : List (α × String)) (u : List String)
    (h1 : parseBatch forced available files1 [] [] = .ok (d, u))
    (h2 : resolveGrammar bad.1 bad.2 forced available = .ok (some p))
    (h3 : p.parseFile bad.1 bad.2 = .error msg) :
    parse_statements (files1 ++ bad :: rest) forced available =
      .error (.parseFailure msg)
    ∧ (∀ year, desj_parse_file year .openFail =
        .error ("Failed to read".data))
    ∧ (∀ year pages, DesjPage.err ∈ pages →
        desj_parse_file year (.opened pages) =
          .error ("Failed to read".data)) := by
  refine ⟨?_, fun year => rfl, fun year pages h => desjPageLoop_err year pages h⟩
  unfold parse_statements
  rw [parseBatch_append forced available files1 (bad :: rest) [] [], h1]
  obtain ⟨path, sniff⟩ := bad
  show parseBatch forced available ((path, sniff) :: rest) d u =
    .error (.parseFailure msg)
  simp only [parseBatch, h2, h3]

/-- Witness for C8: a one-file batch whose grammar raises aborts with the
propagated error. -/
theorem C8_batch_fail_fast_witness :
    parse_statements [("bad.pdf", exSniff)] none [exGrammarBoom] =
      .error (.parseFailure "boom") ∧
    desj_parse_file 2024 .openFail = .error ("Failed to read".data) := by
  have h := C8_batch_fail_fast [] ("bad.pdf", exSniff) [] none [exGrammarBoom]
    exGrammarBoom "boom" [] [] rfl rfl rfl
  exact ⟨h.1, h.2.1 2024⟩

/-! ### TD grammar theorems -/

theorem split_amounts_append (tokens : List (List Char)) :
    (split_amounts tokens).1 ++ (split_amounts tokens).2 = tokens := by
  simp only [split_amounts]
  set run := tokens.reverse.takeWhile isAmountToken with hrun
  obtain ⟨t, ht⟩ := List.takeWhile_prefix (l := tokens.reverse) isAmountToken
  rw [← hrun] at ht
  have hdrop : tokens.reverse.drop run.length = t := by
    conv_lhs => rw [← ht]
    exact List.drop_left _ _
  rw [hdrop, ← List.reverse_append, ht, List.reverse_reverse]

/-- C5: TD year selection.  `choose_year` always picks the header's end year
when the transaction month is numerically below the header's start month and
the start year otherwise; the example header parses to the stated endpoint
triples, and `NOV05` under that header resolves to 2025-11-05. -/
theorem C5_td_year_selection :
    (∀ (month : ℕ) (s e : ℕ × ℕ × ℕ),
      choose_year month s e = if month < s.2.1 then e.1 else s.1)
    ∧ parse_date_range ("OCT31/25-NOV28/25".data) =
      some ((2025, 10, 31), (2025, 11, 28))
    ∧ parse_date_token ("NOV05".data) (2025, 10, 31) (2025, 11, 28) =
      some ⟨2025, 11, 5⟩ := by
  refine ⟨?_, by decide, by decide⟩
  intro month s e
  unfold choose_year
  by_cases h : s.1 = e.1
  · rw [if_pos h]
    by_cases h2 : month < s.2.1 <;> simp [h2, h]
  · rw [if_neg h]

/-- C6: TD column semantics.  `split_amounts` splits a line's tokens into a
description prefix and the trailing run of amount-shaped tokens in order
(withdrawal first, deposit second); with two amount tokens a non-zero
deposit yields the negated deposit regardless of the withdrawal, a zero
deposit yields the withdrawal; a single amount token is used directly; and
every amount emitted by `parse_transaction_line` is computed this way from
the tokens before the date. -/
theorem C6_td_columns :
    (∀ tokens : List (List Char),
      (split_amounts tokens).1 ++ (split_amounts tokens).2 = tokens
      ∧ (split_amounts tokens).2.all isAmountToken = true)
    ∧ (∀ wTok dTok w d, normalize_amount wTok = some w →
        normalize_amount dTok = some d →
        computeAmountValue [wTok, dTok] = some (if d = 0 then w else -d))
    ∧ (∀ aTok a, normalize_amount aTok = some a →
        computeAmountValue [aTok] = some a)
    ∧ (∀ line s e tx, parse_transaction_line line s e = some tx →
        ∃ dateToken before,
          searchLineDate (pyUpper (stripWS line)) = some dateToken
          ∧ lineBeforeDate (pySplitWS (stripWS line))
              (dropSpacesAll dateToken) = some before
          ∧ computeAmountValue (split_amounts before).2 = some tx.amount) := by
  refine ⟨?_, ?_, ?_, ?_⟩
  · intro tokens
    refine ⟨split_amounts_append tokens, ?_⟩
    unfold split_amounts
    simp only [List.all_reverse]
    exact List.all_takeWhile
  · intro wTok dTok w d h1 h2
    simp only [computeAmountValue, h1, h2]
    by_cases hd : d = 0
    · simp [hd, h1, h2, List.any_cons]
    · simp [hd, h1, h2, List.any_cons]
  · intro aTok a h
    simp [computeAmountValue, h]
  · intro line s e tx h
    simp only [parse_transaction_line] at h
    by_cases h0 : stripWS line = []
    · rw [if_pos h0] at h; cases h
    · rw [if_neg h0] at h
      by_cases h1 : ("STARTING".data).isPrefixOf (pyUpper (stripWS line))
          ∨ ("CLOSING".data).isPrefixOf (pyUpper (stripWS line))
      · rw [if_pos h1] at h; cases h
      · rw [if_neg h1] at h
        cases hsearch : searchLineDate (pyUpper (stripWS line)) with
        | none => rw [hsearch] at h; cases h
        | some dateToken =>
          rw [hsearch] at h
          dsimp only at h
          cases hbd : lineBeforeDate (pySplitWS (stripWS line))
              (dropSpacesAll dateToken) with
          | none => rw [hbd] at h; cases h
          | some before =>
            rw [hbd] at h
            dsimp only at h
            by_cases h2 : (split_amounts before).2 = []
            · rw [if_pos h2] at h; cases h
            · rw [if_neg h2] at h
              cases hdt : parse_date_token (dropSpacesAll dateToken) s e with
              | none => rw [hdt] at h; cases h
              | some txd =>
                rw [hdt] at h
                dsimp only at h
                by_cases h3 : stripWS
                    (List.intercalate [' '] (split_amounts before).1) = []
                · rw [if_pos h3] at h; cases h
                · rw [if_neg h3] at h
                  cases hav : computeAmountValue (split_amounts before).2 with
                  | none => rw [hav] at h; cases h
                  | some av =>
                    rw [hav] at h
                    dsimp only at h
                    refine ⟨dateToken, before, rfl, hbd, ?_⟩
                    have htx := Option.some.inj h
                    subst htx
                    exact hav

/-- Witness for C6: concrete two-column and one-column amount choices. -/
theorem C6_td_columns_witness :
    computeAmountValue ["100.00".data, "1234.56".data] =
      some (if (123456 / 100 : ℚ) = 0 then 100 else -(123456 / 100)) ∧
    computeAmountValue ["-55.25".data] = some (-(5525 / 100)) := by
  constructor
  · exact C6_td_columns.2.1 ("100.00".data) ("1234.56".data) 100
      (123456 / 100)
      (by simp [normalize_amount, pyFloat, pyFloatUnsigned, stripWS, isSpaceWS,
        natVal])
      (by simp [normalize_amount, pyFloat, pyFloatUnsigned, stripWS, isSpaceWS,
          natVal]
          norm_num)
  · exact C6_td_columns.2.2.1 ("-55.25".data) (-(5525 / 100))
      (by simp [normalize_amount, pyFloat, pyFloatUnsigned, stripWS, isSpaceWS,
          natVal]
          norm_num)

/-! ### Desjardins row-rejection theorem -/

/-- C7: Grammar A row rejection.  A raw row is skipped exactly when a date
token fails to parse, the posted date precedes the transaction date, the
amount string fails numeric parsing, or the (normalised) description is
empty; a kept row's amount is exactly the parsed amount (never defaulted);
and the page loop keeps exactly the non-skipped rows, in order, counting the
skipped ones. -/
theorem C7_desj_row_rejection (year : ℕ) :
    (∀ r : RawRow,
      (processRow year r = none ↔
        parse_dd_mm r.transaction_date_raw year = none
        ∨ parse_dd_mm r.posted_date_raw year = none
        ∨ (∃ d1 d2, parse_dd_mm r.transaction_date_raw year = some d1
            ∧ parse_dd_mm r.posted_date_raw year = some d2
            ∧ dateLt d2 d1 = true)
        ∨ parseAmount r.amount_raw = none
        ∨ r.description = []))
    ∧ (∀ r t, processRow year r = some t →
        parseAmount r.amount_raw = some t.amount)
    ∧ (∀ rows, (processRows year rows).1 = rows.filterMap (processRow year))
    ∧ (∀ rows, (processRows year rows).2 + (processRows year rows).1.length
        = rows.length) := by
  have hchar : ∀ r t, processRow year r = some t →
      parseAmount r.amount_raw = some t.amount := by
    intro r t h
    cases htx : parse_dd_mm r.transaction_date_raw year with
    | none => rw [processRow, htx] at h; cases h
    | some d1 =>
      cases hpd : parse_dd_mm r.posted_date_raw year with
      | none => rw [processRow, htx, hpd] at h; cases h
      | some d2 =>
        rw [processRow, htx, hpd] at h
        dsimp only at h
        by_cases hlt : dateLt d2 d1 = true
        · rw [if_pos hlt] at h; cases h
        · rw [if_neg hlt] at h
          cases hamt : parseAmount r.amount_raw with
          | none => rw [hamt] at h; cases h
          | some amt =>
            rw [hamt] at h
            dsimp only at h
            by_cases hdesc : r.description = []
            · rw [if_pos hdesc] at h; cases h
            · rw [if_neg hdesc] at h
              have := Option.some.inj h
              subst this
              rfl
  refine ⟨?_, hchar, ?_, ?_⟩
  · intro r
    constructor
    · intro h
      cases htx : parse_dd_mm r.transaction_date_raw year with
      | none => exact Or.inl rfl
      | some d1 =>
        cases hpd : parse_dd_mm r.posted_date_raw year with
        | none => exact Or.inr (Or.inl rfl)
        | some d2 =>
          rw [processRow, htx, hpd] at h
          dsimp only at h
          by_cases hlt : dateLt d2 d1 = true
          · exact Or.inr (Or.inr (Or.inl ⟨d1, d2, rfl, rfl, hlt⟩))
          · rw [if_neg hlt] at h
            cases hamt : parseAmount r.amount_raw with
            | none => exact Or.inr (Or.inr (Or.inr (Or.inl rfl)))
            | some amt =>
              rw [hamt] at h
              dsimp only at h
              by_cases hdesc : r.description = []
              · exact Or.inr (Or.inr (Or.inr (Or.inr hdesc)))
              · rw [if_neg hdesc] at h
                cases h
    · intro h
      cases htx : parse_dd_mm r.transaction_date_raw year with
      | none => rw [processRow, htx]
      | some d1 =>
        cases hpd : parse_dd_mm r.posted_date_raw year with
        | none => rw [processRow, htx, hpd]
        | some d2 =>
          rw [processRow, htx, hpd]
          dsimp only
          rcases h with h | h | ⟨e1, e2, h1, h2, h3⟩ | h | h
          · rw [htx] at h; cases h
          · rw [hpd] at h; cases h
          · rw [htx] at h1
            rw [hpd] at h2
            have he1 := Option.some.inj h1
            have he2 := Option.some.inj h2
            subst he1
            subst he2
            rw [if_pos h3]
          · by_cases hlt : dateLt d2 d1 = true
            · rw [if_pos hlt]
            · rw [if_neg hlt, h]
          · by_cases hlt : dateLt d2 d1 = true
            · rw [if_pos hlt]
            · rw [if_neg hlt]
              cases hamt : parseAmount r.amount_raw with
              | none => rfl
              | some amt =>
                dsimp only
                rw [if_pos h]
  · intro rows
    induction rows with
    | nil => rfl
    | cons r rest ih =>
      simp only [processRows, List.filterMap_cons]
      cases processRow year r with
      | none => exact ih
      | some t => simp only [ih]
  · intro rows
    induction rows with
    | nil => rfl
    | cons r rest ih =>
      simp only [processRows]
      cases processRow year r with
      | none =>
        simp only [List.length_cons]
        omega
      | some t =>
        simp only [List.length_cons]
        omega

/-- Witness for C7: a well-formed concrete row is kept, carrying exactly the
parsed amount. -/
theorem C7_desj_row_rejection_witness :
    parseAmount ("1234".data) = some
      ({ transaction_date := ⟨2025, 11, 5⟩, posted_date := ⟨2025, 11, 7⟩,
          transaction_date_raw := "05 11".data,
          posted_date_raw := "07 11".data,
          description := "B".data, description_raw := "B".data,
          amount := 1234, is_payment := false } : DesjTx).amount :=
  (C7_desj_row_rejection 2025).2.1
    ⟨"05 11".data, "07 11".data, "B".data, "B".data, "1234".data⟩ _ (by
      simp [processRow, parse_dd_mm, pySplitWS, isSpaceWS, natVal, mkDate,
        daysInMonth, isLeap, dateLt, parseAmount, parseAfterCR, endsCR,
        stripParens, removeSpaces, commaToDot, pyFloat, pyFloatUnsigned,
        stripWS, pyUpper, List.isPrefixOf])

/-! ### Desjardins year-inference theorems -/

theorem mkDate_year {y m d : ℕ} {dt : PyDate} (h : mkDate y m d = some dt) :
    dt.year = y := by
  unfold mkDate at h
  split at h
  · have := Option.some.inj h
    subst this
    rfl
  · cases h

theorem parse_dd_mm_year {w : List Char} {year : ℕ} {dt : PyDate}
    (h : parse_dd_mm w year = some dt) : dt.year = year := by
  unfold parse_dd_mm at h
  split at h
  · split at h
    · exact mkDate_year h
    · cases h
  · cases h

theorem processRow_dates {year : ℕ} {r : RawRow} {t : DesjTx}
    (h : processRow year r = some t) :
    t.transaction_date.year = year ∧ t.posted_date.year = year := by
  cases htx : parse_dd_mm r.transaction_date_raw year with
  | none => rw [processRow, htx] at h; cases h
  | some d1 =>
    cases hpd : parse_dd_mm r.posted_date_raw year with
    | none => rw [processRow, htx, hpd] at h; cases h
    | some d2 =>
      rw [processRow, htx, hpd] at h
      dsimp only at h
      by_cases hlt : dateLt d2 d1 = true
      · rw [if_pos hlt] at h; cases h
      · rw [if_neg hlt] at h
        cases hamt : parseAmount r.amount_raw with
        | none => rw [hamt] at h; cases h
        | some amt =>
          rw [hamt] at h
          dsimp only at h
          by_cases hdesc : r.description = []
          · rw [if_pos hdesc] at h; cases h
          · rw [if_neg hdesc] at h
            have := Option.some.inj h
            subst this
            exact ⟨parse_dd_mm_year htx, parse_dd_mm_year hpd⟩

theorem processRows_fst (year : ℕ) (rows : List RawRow) :
    (processRows year rows).1 = rows.filterMap (processRow year) := by
  induction rows with
  | nil => rfl
  | cons r rest ih =>
    simp only [processRows, List.filterMap_cons]
    cases processRow year r with
    | none => exact ih
    | some t => simp only [ih]

/-- C4: Grammar A year inference.  One year per file, chosen with priority:
(1) the year found by the statement-header searches (`Ann[ée]e` over the
sniffed first-page text, else the `DATE DU RELEV[ÉE]…Ann[ée]e` search over
the reopened first page, the latter ignored when it reads `0`); (2) the last
four-digit group of the filename; (3) the current year.  Every transaction
the row loop emits carries this single year on both of its dates. -/
theorem C4_desj_year_inference :
    (∀ sniff env filename currentYear y,
      headerYearFromSniff sniff = some y →
      determine_statement_year sniff env filename currentYear = y)
    ∧ (∀ sniff env filename currentYear y,
      headerYearFromSniff sniff = none →
      headerYearFromReopen env = some y → y ≠ 0 →
      determine_statement_year sniff env filename currentYear = y)
    ∧ (∀ sniff env filename currentYear,
      headerYearFromSniff sniff = none →
      (headerYearFromReopen env = none ∨ headerYearFromReopen env = some 0) →
      determine_statement_year sniff env filename currentYear =
        infer_year_from_filename filename currentYear)
    ∧ (∀ filename currentYear y,
      (findall4 filename).getLast? = some y →
      infer_year_from_filename filename currentYear = y)
    ∧ (∀ filename currentYear,
      findall4 filename = [] →
      infer_year_from_filename filename currentYear = currentYear)
    ∧ (∀ year rows, ∀ t ∈ (processRows year rows).1,
      t.transaction_date.year = year ∧ t.posted_date.year = year) := by
  refine ⟨?_, ?_, ?_, ?_, ?_, ?_⟩
  · intro sniff env filename currentYear y h
    rw [determine_statement_year, h]
  · intro sniff env filename currentYear y h1 h2 h3
    rw [determine_statement_year, h1, h2]
    dsimp only
    rw [if_pos h3]
  · intro sniff env filename currentYear h1 h2
    rcases h2 with h2 | h2
    · rw [determine_statement_year, h1, h2]
    · rw [determine_statement_year, h1, h2]
      dsimp only
      rw [if_neg (by simp)]
  · intro filename currentYear y h
    rw [infer_year_from_filename, h]
  · intro filename currentYear h
    rw [infer_year_from_filename, h]
    rfl
  · intro year rows t ht
    rw [processRows_fst] at ht
    obtain ⟨r, _, hr⟩ := List.mem_filterMap.mp ht
    exact processRow_dates hr

/-- Witness for C4: each priority step on concrete inputs, and the emitted
dates of a concrete row carry the inferred year. -/
theorem C4_desj_year_inference_witness :
    determine_statement_year
      (some { extension := ".pdf".data,
              first_page_text := some ("Année 2030".data) })
      .openFail ("f2001.pdf".data) 1999 = 2030
    ∧ determine_statement_year
      (some { extension := ".pdf".data, first_page_text := some ("x".data) })
      (.opened [.txt (some ("DATE DU RELEVÉ x Année 2022".data))])
      ("f2001.pdf".data) 1999 = 2022
    ∧ determine_statement_year none .openFail ("f2001.pdf".data) 1999 = 2001
    ∧ infer_year_from_filename ("nodigits.pdf".data) 1999 = 1999
    ∧ (∀ t ∈ (processRows 2025
        [⟨"05 11".data, "07 11".data, "B".data, "B".data, "1234".data⟩]).1,
        t.transaction_date.year = 2025 ∧ t.posted_date.year = 2025) := by
  refine ⟨?_, ?_, ?_, ?_, ?_⟩
  · exact C4_desj_year_inference.1 _ _ _ _ 2030 (by decide)
  · exact C4_desj_year_inference.2.1 _ _ _ _ 2022 (by decide) (by decide)
      (by decide)
  · have h := C4_desj_year_inference.2.2.1 none .openFail
      ("f2001.pdf".data) 1999 (by decide) (Or.inl (by decide))
    rw [h]
    exact C4_desj_year_inference.2.2.2.1 _ 1999 2001
      (by simp [findall4, natVal])
  · exact C4_desj_year_inference.2.2.2.2.1 _ 1999 (by simp [findall4])
  · exact C4_desj_year_inference.2.2.2.2.2 2025 _

/-! ### Desjardins amount-sign theorems -/

theorem dropWhile_eq_self_of_all {p : Char → Bool} {l : List Char}
    (h : ∀ x ∈ l, p x = false) : l.dropWhile p = l := by
  cases l with
  | nil => rfl
  | cons c t =>
    rw [List.dropWhile_cons, h c (List.mem_cons_self c t)]
    simp

theorem mem_stripWS {v : List Char} {x : Char} (hx : x ∈ stripWS v) :
    x ∈ v := by
  unfold stripWS at hx
  rw [List.mem_reverse] at hx
  have h1 := (List.dropWhile_sublist (l := (v.dropWhile isSpaceWS).reverse)
    isSpaceWS).subset hx
  rw [List.mem_reverse] at h1
  exact (List.dropWhile_sublist (l := v) isSpaceWS).subset h1

theorem pyFloatUnsigned_nonneg {w : List Char} {m : ℚ}
    (h : pyFloatUnsigned w = some m) : 0 ≤ m := by
  simp only [pyFloatUnsigned] at h
  split at h
  · split at h
    · cases h
    · have := Option.some.inj h
      subst this
      positivity
  · split at h
    · have := Option.some.inj h
      subst this
      positivity
    · cases h
  · cases h

theorem pyFloat_nonneg {v : List Char} {m : ℚ}
    (hchars : ∀ c ∈ v, c ≠ '-') (h : pyFloat v = some m) : 0 ≤ m := by
  unfold pyFloat at h
  cases hs : stripWS v with
  | nil => rw [hs] at h; cases h
  | cons c t =>
    rw [hs] at h
    dsimp only at h
    have hc : c ∈ v := mem_stripWS (hs ▸ List.mem_cons_self c t)
    rw [if_neg (hchars c hc)] at h
    by_cases hplus : c = '+'
    · rw [if_pos hplus] at h
      exact pyFloatUnsigned_nonneg h
    · rw [if_neg hplus] at h
      exact pyFloatUnsigned_nonneg h

theorem clean_no_minus {w : List Char}
    (hchars : ∀ c ∈ w, c.isDigit ∨ c = ',' ∨ c = ' ') :
    ∀ c ∈ commaToDot (removeSpaces w), c ≠ '-' := by
  intro c hc
  unfold commaToDot at hc
  have hsub : ∀ x ∈ removeSpaces w, x ≠ '-' := by
    intro x hx
    have hxw : x ∈ w := (List.mem_filter.mp hx).1
    rcases hchars x hxw with h | h | h
    · intro he; subst he; exact absurd h (by decide)
    · intro he; subst he; exact absurd h (by decide)
    · intro he; subst he; exact absurd h (by decide)
  split at hc
  · obtain ⟨x, hx, hmap⟩ := List.mem_map.mp hc
    by_cases hxc : x = ','
    · rw [if_pos hxc] at hmap
      subst hmap
      decide
    · rw [if_neg hxc] at hmap
      subst hmap
      exact hsub x hx
  · exact hsub c hc

theorem endsCR_false_of_plain {w : List Char} (hw : w ≠ [])
    (hchars : ∀ c ∈ w, c.isDigit ∨ c = ',' ∨ c = ' ') :
    endsCR w = false := by
  cases hrev : w.reverse with
  | nil => exact absurd (List.reverse_eq_nil_iff.mp hrev) hw
  | cons r rest =>
    have hr : r ∈ w := by
      rw [← List.mem_reverse, hrev]
      exact List.mem_cons_self r rest
    have hrR : r ≠ 'R' := by
      rcases hchars r hr with h | h | h
      · intro he; subst he; exact absurd h (by decide)
      · intro he; subst he; exact absurd h (by decide)
      · intro he; subst he; exact absurd h (by decide)
    unfold endsCR
    rw [hrev]
    cases rest with
    | nil => rfl
    | cons c rest2 => simp [hrR]

theorem endsCR_concat_CR (w : List Char) :
    endsCR (w ++ ['C', 'R']) = true
    ∧ ((w ++ ['C', 'R']).reverse.drop 2).reverse = w := by
  constructor
  · unfold endsCR
    rw [List.reverse_append]
    rfl
  · rw [List.reverse_append]
    simp

theorem endsCR_concat_rparen (v : List Char) :
    endsCR (v ++ [')']) = false := by
  unfold endsCR
  rw [List.reverse_append]
  cases v.reverse with
  | nil => rfl
  | cons c t => rfl

theorem stripParens_wrap {w : List Char} (hw : w ≠ [])
    (hchars : ∀ c ∈ w, c.isDigit ∨ c = ',' ∨ c = ' ') :
    stripParens ('(' :: (w ++ [')'])) = w := by
  have hparen : ∀ x ∈ w, (x == '(' || x == ')') = false := by
    intro x hx
    rcases hchars x hx with h | h | h
    · cases hxeq : x == '('
      · cases hxeq2 : x == ')'
        · rfl
        · have := eq_of_beq hxeq2
          subst this
          exact absurd h (by decide)
      · have := eq_of_beq hxeq
        subst this
        exact absurd h (by decide)
    · subst h; rfl
    · subst h; rfl
  obtain ⟨c, t, rfl⟩ : ∃ c t, w = c :: t := by
    cases w with
    | nil => exact absurd rfl hw
    | cons c t => exact ⟨c, t, rfl⟩
  unfold stripParens
  have h1 : ('(' :: ((c :: t) ++ [')'])).dropWhile
      (fun x => x == '(' || x == ')') = (c :: t) ++ [')'] := by
    rw [List.dropWhile_cons]
    simp only [List.cons_append, List.dropWhile_cons]
    rw [hparen c (List.mem_cons_self c t)]
    rfl
  rw [h1]
  have h2 : ((c :: t) ++ [')']).reverse = ')' :: (c :: t).reverse := by
    rw [List.reverse_append]
    rfl
  rw [h2, List.dropWhile_cons]
  have h3 : ((')' : Char) == '(' || (')' : Char) == ')') = true := by decide
  rw [h3]
  simp only [if_true]
  rw [dropWhile_eq_self_of_all (fun x hx =>
    hparen x (List.mem_reverse.mp hx))]
  simp

theorem parseAfterCR_plain {w : List Char} (hw : w ≠ [])
    (hchars : ∀ c ∈ w, c.isDigit ∨ c = ',' ∨ c = ' ') (b : Bool) :
    parseAfterCR b w =
      match pyFloat (commaToDot (removeSpaces w)) with
      | none => none
      | some m => some (if b then -m else m) := by
  obtain ⟨c, t, rfl⟩ : ∃ c t, w = c :: t := by
    cases w with
    | nil => exact absurd rfl hw
    | cons c t => exact ⟨c, t, rfl⟩
  have hc := hchars c (List.mem_cons_self c t)
  have hcm : c ≠ '-' := by
    intro he
    subst he
    rcases hc with h | h | h
    · exact absurd h (by decide)
    · exact absurd h (by decide)
    · exact absurd h (by decide)
  have hcp : c ≠ '(' := by
    intro he
    subst he
    rcases hc with h | h | h
    · exact absurd h (by decide)
    · exact absurd h (by decide)
    · exact absurd h (by decide)
  have h1 : ((c :: t).head? == some '-') = false := by simp [hcm]
  have h2 : ((c :: t).head? == some '(') = false := by simp [hcp]
  simp only [parseAfterCR, h1, Bool.false_eq_true, if_false]
  simp only [h2, Bool.false_and, Bool.false_eq_true, if_false, Bool.false_or,
    Bool.or_false]

/-- C3: Grammar A amount sign.  The three supported shapes parse
deterministically (`"90,45" → +90.45`, `"12,34CR" → -12.34`,
`"(45,67)" → -45.67`); in general, a plain digits/comma/space amount string
parses to a non-negative value, and appending a `CR` suffix or wrapping the
string in parentheses yields exactly the negated value. -/
theorem C3_amount_sign_parsing :
    parseAmount ("90,45".data) = some (9045 / 100)
    ∧ parseAmount ("12,34CR".data) = some (-(1234 / 100))
    ∧ parseAmount ("(45,67)".data) = some (-(4567 / 100))
    ∧ (∀ w q, w ≠ [] → (∀ c ∈ w, c.isDigit ∨ c = ',' ∨ c = ' ') →
        parseAmount w = some q →
        0 ≤ q
        ∧ parseAmount (w ++ ['C', 'R']) = some (-q)
        ∧ parseAmount ('(' :: (w ++ [')'])) = some (-q)) := by
  refine ⟨?_, ?_, ?_, ?_⟩
  · simp [parseAmount, parseAfterCR, endsCR, stripParens, removeSpaces,
      commaToDot, pyFloat, pyFloatUnsigned, stripWS, isSpaceWS, natVal]
    norm_num
  · simp [parseAmount, parseAfterCR, endsCR, stripParens, removeSpaces,
      commaToDot, pyFloat, pyFloatUnsigned, stripWS, isSpaceWS, natVal]
    norm_num
  · simp [parseAmount, parseAfterCR, endsCR, stripParens, removeSpaces,
      commaToDot, pyFloat, pyFloatUnsigned, stripWS, isSpaceWS, natVal]
    norm_num
  · intro w q hw hchars hpq
    have hCR := endsCR_false_of_plain hw hchars
    have hplainF := parseAfterCR_plain hw hchars false
    have hplainT := parseAfterCR_plain hw hchars true
    rw [parseAmount] at hpq
    rw [hCR] at hpq
    simp only [Bool.false_eq_true, if_false] at hpq
    rw [hplainF] at hpq
    cases hpf : pyFloat (commaToDot (removeSpaces w)) with
    | none => rw [hpf] at hpq; cases hpq
    | some m =>
      rw [hpf] at hpq
      dsimp only at hpq
      have hqm : m = q := Option.some.inj hpq
      subst hqm
      refine ⟨pyFloat_nonneg (clean_no_minus hchars) hpf, ?_, ?_⟩
      · obtain ⟨hcr1, hcr2⟩ := endsCR_concat_CR w
        rw [parseAmount, hcr1]
        simp only [if_true]
        rw [hcr2, hplainT, hpf]
        simp
      · have hv : ('(' :: (w ++ [')'])) = ('(' :: w) ++ [')'] := by simp
        rw [parseAmount]
        rw [hv, endsCR_concat_rparen ('(' :: w)]
        simp only [Bool.false_eq_true, if_false]
        have e1 : ((('(' :: w) ++ [')']).head? == some '-') = false := rfl
        have e3 : ((('(' :: w) ++ [')']).head? == some '(') = true := rfl
        have e2 : (('(' :: w) ++ [')']).getLast? = some ')' :=
          List.getLast?_concat _
        simp only [parseAfterCR, e1, e3, e2, Bool.false_eq_true, if_false,
          Bool.true_and, Bool.false_or]
        have e4 : ((some ')' : Option Char) == some ')') = true := rfl
        simp only [e4, if_true]
        have hlw : ('(' :: w) ++ [')'] = '(' :: (w ++ [')']) := by simp
        rw [hlw, stripParens_wrap hw hchars, hpf]

/-- Witness for C3: the general sign rule applied to the concrete plain
string `"90,45"`. -/
theorem C3_amount_sign_parsing_witness :
    0 ≤ (9045 / 100 : ℚ)
    ∧ parseAmount ("90,45".data ++ ['C', 'R']) = some (-(9045 / 100))
    ∧ parseAmount ('(' :: ("90,45".data ++ [')'])) = some (-(9045 / 100)) :=
  C3_amount_sign_parsing.2.2.2 ("90,45".data) (9045 / 100) (by decide)
    (by decide) C3_amount_sign_parsing.1
